import Mathlib

/-!
Verification development for the background-check bot (src/main.py).

The Python source is shallowly embedded: pure helpers become Lean
functions, the HTTP layer becomes oracle functions passed as parameters
(an oracle maps a request cursor or identifier to the observed response),
the SQL upsert statements become explicit list-of-rows operations, and
the progress-callback side effects of the valuation estimator are
reified as an explicit list of emitted (percent, message) events.
Python float arithmetic in the progress-percentage formulas is modelled
as exact rational (here natural-number) arithmetic with floor division,
and Python int() truncation on non-negative values is floor.
-/

namespace BGCheck

/-! ## Identity resolution (bgcheck, src/main.py lines 577-590)

The bgcheck entry point resolves the target account from the first
supplied input in the fixed order discord_user, roblox_id, username,
and sends an error message when none is supplied.  The RoVer registry
(discord_to_roblox) and the name-lookup service (username_to_roblox)
are modelled as oracle functions returning Option Nat (none models the
service reporting no match, the code paths at lines 582 and 588). -/

inductive IdentityResult where
  | resolved (robloxId : Nat)
  | notVerified
  | nameNotFound
  | invalidInput
deriving DecidableEq, Repr

def resolveTarget (discordUser : Option Nat) (robloxId : Option Nat) (username : Option String)
    (roverLookup : Nat → Option Nat) (nameLookup : String → Option Nat) : IdentityResult :=
  match discordUser with
  | some d =>
    match roverLookup d with
    | some rid => .resolved rid
    | none => .notVerified
  | none =>
    match robloxId with
    | some rid => .resolved rid
    | none =>
      match username with
      | some u =>
        match nameLookup u with
        | some rid => .resolved rid
        | none => .nameNotFound
      | none => .invalidInput

/-! ## Text helpers (safe_text, src/main.py lines 116-118)

safe_text collapses every maximal whitespace run to a single space
(re.sub), strips the ends, and truncates to max_len - 1 characters plus
one ellipsis character when the result is longer than max_len.
Python str is modelled as List Char; isSpace models the ASCII part of
the regex class \s. -/

def isSpace (c : Char) : Bool :=
  c = ' ' || c = '\t' || c = '\n' || c = '\r' || c = '\x0b' || c = '\x0c'

def collapseGo : Bool → List Char → List Char
  | _, [] => []
  | prevSpace, c :: rest =>
    if isSpace c then
      if prevSpace then collapseGo true rest
      else ' ' :: collapseGo true rest
    else c :: collapseGo false rest

def normalizeWs (l : List Char) : List Char :=
  (((collapseGo false l).dropWhile isSpace).reverse.dropWhile isSpace).reverse

def safe_text (s : List Char) (maxLen : Nat) : List Char :=
  if (normalizeWs s).length ≤ maxLen then normalizeWs s
  else (normalizeWs s).take (maxLen - 1) ++ ['…']

/-- clamp from src/main.py lines 138-139; Python ints are modelled as Int. -/
def clamp (n lo hi : Int) : Int := max lo (min hi n)

/-! ## Membership flagging (bgcheck group loop, src/main.py lines 632-673)

The per-membership evaluation of the bgcheck loop.  The three rule
dictionaries loaded at lines 598-613 are modelled as association lists:
watched_map maps group id to the optional label, blrank_map maps a
(group id, rank id) pair to the optional reason column (note the value
itself can be none, mirroring a NULL reason), ranklock_map maps group id
to the max_rank_id of the ranklock row. -/

structure GroupMembership where
  group_id : Nat
  group_name : String
  rank_id : Nat
  role_name : String
deriving DecidableEq, Repr

structure MembershipLine where
  is_watched : Bool
  is_blacklisted_rank : Bool
  rl_flag : Bool
  should_show : Bool
deriving DecidableEq, Repr

def lookupMap {α β : Type} [DecidableEq α] (m : List (α × β)) (k : α) : Option β :=
  (m.find? (fun p => decide (p.1 = k))).map Prod.snd

def evalMembership (watchedMap : List (Nat × Option String))
    (blrankMap : List ((Nat × Nat) × Option String))
    (ranklockMap : List (Nat × Nat))
    (showAll : Bool) (g : GroupMembership) : MembershipLine :=
  { is_watched := (lookupMap watchedMap g.group_id).isSome
    is_blacklisted_rank := ((lookupMap blrankMap (g.group_id, g.rank_id)).join).isSome
    rl_flag :=
      match lookupMap ranklockMap g.group_id with
      | some maxRank => decide (maxRank < g.rank_id)
      | none => false
    should_show :=
      showAll || (lookupMap watchedMap g.group_id).isSome
        || ((lookupMap blrankMap (g.group_id, g.rank_id)).join).isSome
        || (match lookupMap ranklockMap g.group_id with
            | some maxRank => decide (maxRank < g.rank_id)
            | none => false) }

/-! ## The ranklocks table and its upsert (src/main.py lines 58-67 and 525-531)

The ranklocks table has primary key (guild_id, roblox_user_id, group_id).
The ranklock set command runs INSERT ... ON CONFLICT (guild_id,
roblox_user_id, group_id) DO UPDATE SET max_rank_id, reason, set_by,
set_at = now().  A table is a list of rows whose keys are pairwise
distinct (the primary-key invariant); the upsert either rewrites the
value columns of the unique conflicting row or appends a fresh row.
set_at carries the timestamp of the operation (now() at execution). -/

structure RanklockRow where
  guild_id : Nat
  roblox_user_id : Nat
  group_id : Nat
  max_rank_id : Nat
  reason : String
  set_by : Nat
  set_at : Nat
deriving DecidableEq, Repr

def rlKey (r : RanklockRow) : Nat × Nat × Nat := (r.guild_id, r.roblox_user_id, r.group_id)

def updRow (r row : RanklockRow) : RanklockRow :=
  { r with max_rank_id := row.max_rank_id, reason := row.reason,
           set_by := row.set_by, set_at := row.set_at }

def ranklockSet (tbl : List RanklockRow) (row : RanklockRow) : List RanklockRow :=
  if tbl.any (fun r => decide (rlKey r = rlKey row)) then
    tbl.map (fun r => if rlKey r = rlKey row then updRow r row else r)
  else
    tbl ++ [row]

/-- The unique row a key holds after an upsert carrying the given value columns. -/
def canonRow (k : Nat × Nat × Nat) (row : RanklockRow) : RanklockRow :=
  ⟨k.1, k.2.1, k.2.2, row.max_rank_id, row.reason, row.set_by, row.set_at⟩

/-! ## Membership fetch (get_user_groups, src/main.py lines 220-224)

get_user_groups returns the data list on HTTP 200 and the empty list on
a transport exception or any other status. -/

inductive GroupsResp where
  | exn
  | resp (status : Nat) (data : List GroupMembership)
deriving DecidableEq, Repr

def get_user_groups (r : GroupsResp) : List GroupMembership :=
  match r with
  | .exn => []
  | .resp status data => if status = 200 then data else []

/-! ## Inventory pagination (inv_fetch_asset_type, src/main.py lines 249-286)

One page fetch yields either a transport exception (after the retry
loop of http_get) or a status code plus a page of asset ids and a next
cursor (the empty string models a missing nextPageCursor).  The page
oracle maps the cursor sent (the empty string for the first request) to
the observed response.  The traversal runs at most limit_pages
iterations, stops on an empty cursor or a cursor already seen, returns
assetIds = none exactly on a 401/403 status, and counts its fetches. -/

structure InvPage where
  items : List Nat
  nextPageCursor : String
deriving DecidableEq, Repr

inductive InvResp where
  | exn
  | resp (status : Nat) (page : InvPage)
deriving DecidableEq, Repr

structure InvFetchResult where
  assetIds : Option (List Nat)
  status : Option Nat
  fetches : Nat
deriving DecidableEq, Repr

def bump (r : InvFetchResult) : InvFetchResult := ⟨r.assetIds, r.status, r.fetches + 1⟩

def invGo (fetch : String → InvResp) : Nat → String → List String → List Nat → Option Nat →
    InvFetchResult
  | 0, _, _, acc, st => ⟨some acc, st, 0⟩
  | fuel + 1, cursor, seen, acc, _ =>
    match fetch cursor with
    | .exn => ⟨some acc, none, 1⟩
    | .resp status page =>
      if status = 401 ∨ status = 403 then ⟨none, some status, 1⟩
      else if status ≠ 200 then ⟨some acc, some status, 1⟩
      else if page.nextPageCursor = "" then ⟨some (acc ++ page.items), some status, 1⟩
      else if page.nextPageCursor ∈ seen then ⟨some (acc ++ page.items), some status, 1⟩
      else bump (invGo fetch fuel page.nextPageCursor (page.nextPageCursor :: seen)
        (acc ++ page.items) (some status))

def inv_fetch_asset_type (fetch : String → InvResp) (limitPages : Nat) : InvFetchResult :=
  invGo fetch limitPages "" [] [] none

/-! ## Valuation estimator (compute_value_estimate, src/main.py lines 299-392)

ASSET_TYPES is the fixed ordered category list of lines 234-247.  The
scan phase walks it in order, emitting a progress event before each
category fetch, and stops at the first category whose fetch signals
privacy (assetIds = none).  The pricing phase deduplicates the
accumulated ids preserving first occurrence (dict.fromkeys), truncates
to the clamped sample size, and would price each sampled id once; the
ids submitted for pricing are recorded in pricingCalls.  All progress
events are recorded in emissions in order. -/

def ASSET_TYPES : List (Nat × String) :=
  [(8, "Hats"), (41, "Hair"), (42, "Face Acc"), (43, "Neck Acc"), (44, "Shoulder Acc"),
   (45, "Front Acc"), (46, "Back Acc"), (47, "Waist Acc"), (2, "T-Shirts"),
   (11, "Shirts"), (12, "Pants"), (18, "Faces")]

/-- int((idx - 1) / max(1, total_types) * 40) of line 317, as exact arithmetic. -/
def phase1Pct (t idx : Nat) : Nat := (idx - 1) * 40 / max 1 t

/-- 40 + int(i / max(1, total_to_price) * 55) of line 369, as exact arithmetic. -/
def pricingPct (t i : Nat) : Nat := 40 + i * 55 / max 1 t

/-- list(dict.fromkeys(all_assets)) of line 347: first-occurrence-order dedup. -/
def pyDedup (l : List Nat) : List Nat :=
  l.foldl (fun acc a => if a ∈ acc then acc else acc ++ [a]) []

structure ScanResult where
  isPrivate : Bool
  typeCounts : List (String × Nat)
  allAssets : List Nat
  statusMap : List (String × Option Nat)
  fetched : List (Nat × String)
  emissions : List (Nat × String)
deriving DecidableEq, Repr

def scanGo (inv : Nat → Option (List Nat) × Option Nat) (t : Nat) :
    List (Nat × String) → Nat → ScanResult
  | [], _ => ⟨false, [], [], [], [], []⟩
  | (atid, label) :: rest, idx =>
    match inv atid with
    | (none, status) =>
      ⟨true, [], [], [(label, status)], [(atid, label)],
        [(phase1Pct t idx, "Scanning inventory… (" ++ label ++ ")")]⟩
    | (some ids, status) =>
      let r := scanGo inv t rest (idx + 1)
      ⟨r.isPrivate, (label, ids.length) :: r.typeCounts, ids ++ r.allAssets,
        (label, status) :: r.statusMap, (atid, label) :: r.fetched,
        (phase1Pct t idx, "Scanning inventory… (" ++ label ++ ")") :: r.emissions⟩

structure ValEstimate where
  inventory_private : Bool
  type_counts : List (String × Nat)
  priced_assets : Nat
  est_value_robux : Option Nat
  notes : List String
  status_map : List (String × Option Nat)
deriving DecidableEq, Repr

structure RunResult where
  est : ValEstimate
  emissions : List (Nat × String)
  pricingCalls : List Nat
  fetchedCats : List (Nat × String)
deriving DecidableEq, Repr

def privacyNote : String :=
  "Inventory lookup returned 403/401 (privacy or Roblox blocking this host)."

def noItemsNote : String :=
  "No items found in checked categories (or Roblox returned empty lists)."

def unpricedNote : String :=
  "Could not read prices for sampled items (offsale/limited/no public price)."

def privateResult (s : ScanResult) : RunResult :=
  { est := ⟨true, s.typeCounts, 0, none, [privacyNote], s.statusMap⟩
    emissions := s.emissions ++ [(100, "Stopped: inventory blocked/private.")]
    pricingCalls := []
    fetchedCats := s.fetched }

/-- uniq_assets[:max_assets_to_price] of line 361, applied to the dedup of line 347. -/
def sampleAssets (s : ScanResult) (m : Int) : List Nat :=
  (pyDedup s.allAssets).take m.toNat

/-- The progress events of the pricing loop (lines 366-370): emitted for
i = 1, every tenth i, and i = total. -/
def pricingEmissions (t : Nat) : List (Nat × String) :=
  ((List.range' 1 t).filter (fun i => decide (i = 1) || decide (i % 10 = 0) || decide (i = t))).map
    (fun i => (pricingPct t i,
      "Estimating catalog value… (" ++ toString i ++ "/" ++ toString t ++ ")"))

def phase2 (s : ScanResult) (price : Nat → Option Nat) (m : Int) : RunResult :=
  if pyDedup s.allAssets = [] then
    { est := ⟨false, s.typeCounts, 0, none, [noItemsNote], s.statusMap⟩
      emissions := s.emissions ++ [(100, "Done (no items found).")]
      pricingCalls := []
      fetchedCats := s.fetched }
  else
    { est := ⟨false, s.typeCounts, ((sampleAssets s m).filterMap price).length,
        (if 0 < ((sampleAssets s m).filterMap price).length
         then some ((sampleAssets s m).filterMap price).sum else none),
        (if 0 < ((sampleAssets s m).filterMap price).length then [] else [unpricedNote]),
        s.statusMap⟩
      emissions := s.emissions ++ pricingEmissions (sampleAssets s m).length
        ++ [(100, "Value estimate complete.")]
      pricingCalls := sampleAssets s m
      fetchedCats := s.fetched }

def compute_value_estimate (inv : Nat → Option (List Nat) × Option Nat)
    (price : Nat → Option Nat) (maxAssetsToPrice : Int) : RunResult :=
  if (scanGo inv ASSET_TYPES.length ASSET_TYPES 1).isPrivate then
    privateResult (scanGo inv ASSET_TYPES.length ASSET_TYPES 1)
  else
    phase2 (scanGo inv ASSET_TYPES.length ASSET_TYPES 1) price (clamp maxAssetsToPrice 30 300)

/-- The category fetch used by compute_value_estimate (line 320): one call to
inv_fetch_asset_type with limit_pages = 2, projected to (asset_ids, status). -/
def invOf (pageFetch : Nat → String → InvResp) (atid : Nat) : Option (List Nat) × Option Nat :=
  ((inv_fetch_asset_type (pageFetch atid) 2).assetIds, (inv_fetch_asset_type (pageFetch atid) 2).status)

def compute_value_estimate_full (pageFetch : Nat → String → InvResp)
    (price : Nat → Option Nat) (maxAssetsToPrice : Int) : RunResult :=
  compute_value_estimate (invOf pageFetch) price maxAssetsToPrice

/-! ## Progress relay (bgcheck progress_cb, src/main.py lines 684-699 and 701-705, 776-777)

bgcheck sends percent 0 before the estimate and percent 100 after it;
progress_cb drops an update when less than 1.25 seconds (modelled in
milliseconds) have passed since the last sent update and the percent is
below 100. -/

def throttleKeep (lastUpdate now : Nat) (percent : Nat) : Bool :=
  !(decide (now - lastUpdate < 1250) && decide (percent < 100))

def bgcheckEmissions (pageFetch : Nat → String → InvResp)
    (price : Nat → Option Nat) (maxAssetsToPrice : Int) : List (Nat × String) :=
  (0, "Starting…") ::
    ((compute_value_estimate_full pageFetch price maxAssetsToPrice).emissions ++ [(100, "Done.")])

/-! ## Theorems -/

/-- C1 counterexample: supplying both a direct roblox_id and a username does
not fail; the elif chain of lines 577-590 resolves through roblox_id and
ignores the username, so the run does not surface InvalidInput. -/
theorem bgcheck_multi_input_counterexample :
    resolveTarget none (some 123) (some "alice") (fun _ => none) (fun _ => some 999)
      = IdentityResult.resolved 123
    ∧ IdentityResult.resolved 123 ≠ IdentityResult.invalidInput :=
  ⟨rfl, by decide⟩

/-- C1 (amended): the bgcheck entry point fails with InvalidInput iff no
identity input form is supplied; when several are supplied no error is
raised, the first present form in the priority order discord_user,
roblox_id, username is resolved. -/
theorem resolve_identity_forms (d r : Option Nat) (u : Option String)
    (f : Nat → Option Nat) (g : String → Option Nat) :
    (resolveTarget d r u f g = IdentityResult.invalidInput ↔ d = none ∧ r = none ∧ u = none)
    ∧ (∀ dv, d = some dv →
        resolveTarget d r u f g =
          (match f dv with
           | some rid => IdentityResult.resolved rid
           | none => IdentityResult.notVerified))
    ∧ (d = none → ∀ rv, r = some rv → resolveTarget d r u f g = IdentityResult.resolved rv)
    ∧ (d = none → r = none → ∀ uv, u = some uv →
        resolveTarget d r u f g =
          (match g uv with
           | some rid => IdentityResult.resolved rid
           | none => IdentityResult.nameNotFound)) := by
  refine ⟨?_, ?_, ?_, ?_⟩
  · cases d with
    | some dv =>
      cases hf : f dv <;> simp [resolveTarget, hf]
    | none =>
      cases r with
      | some rv => simp [resolveTarget]
      | none =>
        cases u with
        | some uv => cases hg : g uv <;> simp [resolveTarget, hg]
        | none => simp [resolveTarget]
  · intro dv hd
    subst hd
    rfl
  · intro hd rv hr
    subst hd; subst hr
    rfl
  · intro hd hr uv hu
    subst hd; subst hr; subst hu
    rfl

theorem resolve_identity_forms_witness :
    resolveTarget none none none (fun _ => none) (fun _ => none) = IdentityResult.invalidInput :=
  (resolve_identity_forms none none none (fun _ => none) (fun _ => none)).1.mpr ⟨rfl, rfl, rfl⟩

/-- C2: a membership is flagged as exceeding a ranklock iff its rank is
strictly greater than the max_rank_id of the ranklock rule for its group
(line 650: rl_flag = rank_id > max_rank); equality never flags. -/
theorem ranklock_exceeded_iff (w : List (Nat × Option String))
    (bl : List ((Nat × Nat) × Option String)) (rlm : List (Nat × Nat))
    (showAll : Bool) (g : GroupMembership) (M : Nat)
    (h : lookupMap rlm g.group_id = some M) :
    ((evalMembership w bl rlm showAll g).rl_flag = true ↔ M < g.rank_id)
    ∧ (g.rank_id = M → (evalMembership w bl rlm showAll g).rl_flag = false) := by
  constructor
  · simp [evalMembership, h]
  · intro he
    simp [evalMembership, h, he]

theorem ranklock_exceeded_iff_witness :
    lookupMap [((500 : Nat), (10 : Nat))] (500 : Nat) = some 10
    ∧ (((evalMembership [] [] [(500, 10)] false ⟨500, "Group", 10, "Role"⟩).rl_flag = true ↔ 10 < 10)
       ∧ ((10 : Nat) = 10 →
          (evalMembership [] [] [(500, 10)] false ⟨500, "Group", 10, "Role"⟩).rl_flag = false)) :=
  ⟨rfl, ranklock_exceeded_iff [] [] [(500, 10)] false ⟨500, "Group", 10, "Role"⟩ 10 rfl⟩

/-- C5 counterexample: a membership-service failure (HTTP 500) makes
get_user_groups return the empty list (lines 222-223), the very value a
successful call returns for a subject with no memberships; nothing
aborts and no error is surfaced to the caller. -/
theorem membership_failure_counterexample :
    get_user_groups (GroupsResp.resp 500 [⟨7, "SomeGroup", 5, "Member"⟩]) = []
    ∧ get_user_groups (GroupsResp.resp 500 [⟨7, "SomeGroup", 5, "Member"⟩])
        = get_user_groups (GroupsResp.resp 200 []) := by
  constructor <;> rfl

/-- C5 (amended): a membership-service failure (transport exception or any
non-200 status) does not abort the run; get_user_groups returns the empty
list and bgcheck proceeds, so the resulting Report is indistinguishable
from the subject having no memberships. -/
theorem get_user_groups_failure_empty (r : GroupsResp)
    (h : r = GroupsResp.exn ∨ ∃ s data, r = GroupsResp.resp s data ∧ s ≠ 200) :
    get_user_groups r = [] := by
  rcases h with h | ⟨s, data, rfl, hs⟩
  · subst h; rfl
  · simp [get_user_groups, hs]

theorem get_user_groups_failure_empty_witness :
    (GroupsResp.resp 503 [⟨7, "SomeGroup", 5, "Member"⟩] = GroupsResp.exn
      ∨ ∃ s data, GroupsResp.resp 503 [⟨7, "SomeGroup", 5, "Member"⟩] = GroupsResp.resp s data
          ∧ s ≠ 200)
    ∧ get_user_groups (GroupsResp.resp 503 [⟨7, "SomeGroup", 5, "Member"⟩]) = [] :=
  ⟨Or.inr ⟨503, [⟨7, "SomeGroup", 5, "Member"⟩], rfl, by decide⟩,
   get_user_groups_failure_empty _ (Or.inr ⟨503, [⟨7, "SomeGroup", 5, "Member"⟩], rfl, by decide⟩)⟩

/-- C10: safe_text never returns more than max_len characters; when the
whitespace-normalised input fits it is returned unchanged, otherwise it is
cut to max_len - 1 characters plus one ellipsis character (lines 116-118). -/
theorem safe_text_spec (s : List Char) (maxLen : Nat) (h : 1 ≤ maxLen) :
    (safe_text s maxLen).length ≤ maxLen
    ∧ ((normalizeWs s).length ≤ maxLen → safe_text s maxLen = normalizeWs s)
    ∧ (maxLen < (normalizeWs s).length →
        safe_text s maxLen = (normalizeWs s).take (maxLen - 1) ++ ['…']) := by
  unfold safe_text
  by_cases hle : (normalizeWs s).length ≤ maxLen
  · rw [if_pos hle]
    exact ⟨hle, fun _ => rfl, fun hlt => absurd hle (not_le.mpr hlt)⟩
  · rw [if_neg hle]
    push_neg at hle
    refine ⟨?_, fun hc => absurd (lt_of_le_of_lt hc hle) (lt_irrefl _), fun _ => rfl⟩
    simp only [List.length_append, List.length_take, List.length_singleton]
    omega

theorem safe_text_spec_witness :
    1 ≤ 3
    ∧ ((safe_text ['a', ' ', ' ', 'b'] 3).length ≤ 3
      ∧ ((normalizeWs ['a', ' ', ' ', 'b']).length ≤ 3 →
          safe_text ['a', ' ', ' ', 'b'] 3 = normalizeWs ['a', ' ', ' ', 'b'])
      ∧ (3 < (normalizeWs ['a', ' ', ' ', 'b']).length →
          safe_text ['a', ' ', ' ', 'b'] 3
            = (normalizeWs ['a', ' ', ' ', 'b']).take (3 - 1) ++ ['…'])) :=
  ⟨by decide, safe_text_spec ['a', ' ', ' ', 'b'] 3 (by decide)⟩

theorem rlKey_updRow (r row : RanklockRow) : rlKey (updRow r row) = rlKey r := rfl

theorem updRow_eq_canon (r row : RanklockRow) (k : Nat × Nat × Nat) (hr : rlKey r = k) :
    updRow r row = canonRow k row := by
  subst hr
  rfl

theorem row_eq_canon (row : RanklockRow) (k : Nat × Nat × Nat) (hr : rlKey row = k) :
    row = canonRow k row := by
  subst hr
  rfl

theorem filter_upd_map (row : RanklockRow) (k : Nat × Nat × Nat) (hk : rlKey row = k) :
    ∀ tbl : List RanklockRow, (tbl.map rlKey).Nodup →
      ((tbl.map (fun r => if rlKey r = rlKey row then updRow r row else r)).filter
          (fun r => decide (rlKey r = k)))
        = if tbl.any (fun r => decide (rlKey r = rlKey row)) then [canonRow k row] else [] := by
  intro tbl
  induction tbl with
  | nil => intro _; simp
  | cons r rest ih =>
    intro hnd
    rw [List.map_cons, List.nodup_cons] at hnd
    by_cases hr : rlKey r = rlKey row
    · have hrk : rlKey r = k := hr.trans hk
      have hkeys : ∀ x ∈ rest, rlKey x ≠ k := by
        intro x hx heq
        exact hnd.1 (hrk.trans heq.symm ▸ List.mem_map_of_mem rlKey hx)
      have htail : (rest.map (fun x => if rlKey x = rlKey row then updRow x row else x)).filter
          (fun r => decide (rlKey r = k)) = [] := by
        rw [List.filter_eq_nil_iff]
        intro a ha
        obtain ⟨x, hx, rfl⟩ := List.mem_map.mp ha
        by_cases hxr : rlKey x = rlKey row
        · exact absurd (hxr.trans hk) (hkeys x hx)
        · simpa [hxr] using hkeys x hx
      have hhead : rlKey (updRow r row) = k := (rlKey_updRow r row).trans hrk
      have hc : rlKey (canonRow k row) = k := rfl
      simp [hr, hhead, htail, updRow_eq_canon r row k hrk, List.any_cons, List.filter_cons, hc]
    · have hrk : ¬ rlKey r = k := fun hcontra => hr (hcontra.trans hk.symm)
      have := ih hnd.2
      simp [hr, hrk, List.any_cons, this]

theorem ranklockSet_filter (tbl : List RanklockRow) (row : RanklockRow) (k : Nat × Nat × Nat)
    (hnd : (tbl.map rlKey).Nodup) (hk : rlKey row = k) :
    (ranklockSet tbl row).filter (fun r => decide (rlKey r = k)) = [canonRow k row] := by
  unfold ranklockSet
  by_cases ha : tbl.any (fun r => decide (rlKey r = rlKey row)) = true
  · rw [if_pos ha, filter_upd_map row k hk tbl hnd, if_pos ha]
  · rw [if_neg ha, List.filter_append]
    have h1 : tbl.filter (fun r => decide (rlKey r = k)) = [] := by
      rw [List.filter_eq_nil_iff]
      intro a haa
      intro hd
      apply ha
      rw [List.any_eq_true]
      refine ⟨a, haa, ?_⟩
      simp at hd ⊢
      exact hd.trans hk.symm
    have h2 : List.filter (fun r => decide (rlKey r = k)) [row] = [row] := by
      simp [hk]
    rw [h1, h2, List.nil_append, ← row_eq_canon row k hk]

theorem keys_upd_map (row : RanklockRow) (tbl : List RanklockRow) :
    (tbl.map (fun r => if rlKey r = rlKey row then updRow r row else r)).map rlKey
      = tbl.map rlKey := by
  induction tbl with
  | nil => rfl
  | cons r rest ih =>
    by_cases hr : rlKey r = rlKey row <;> simp [hr, ih, rlKey_updRow]

theorem ranklockSet_nodup (tbl : List RanklockRow) (row : RanklockRow)
    (hnd : (tbl.map rlKey).Nodup) : ((ranklockSet tbl row).map rlKey).Nodup := by
  unfold ranklockSet
  by_cases ha : tbl.any (fun r => decide (rlKey r = rlKey row)) = true
  · rw [if_pos ha, keys_upd_map]
    exact hnd
  · rw [if_neg ha, List.map_append]
    rw [List.nodup_append]
    refine ⟨hnd, by simp, ?_⟩
    intro a haa
    simp only [List.map_cons, List.map_nil, List.mem_singleton]
    intro hb
    subst hb
    obtain ⟨x, hx, hxk⟩ := List.mem_map.mp haa
    apply ha
    rw [List.any_eq_true]
    exact ⟨x, hx, by simp [hxk]⟩

theorem foldl_ranklockSet_nodup :
    ∀ (ops : List RanklockRow) (tbl : List RanklockRow), (tbl.map rlKey).Nodup →
      ((List.foldl ranklockSet tbl ops).map rlKey).Nodup := by
  intro ops
  induction ops with
  | nil => intro tbl h; exact h
  | cons op rest ih =>
    intro tbl h
    rw [List.foldl_cons]
    exact ih _ (ranklockSet_nodup tbl op h)

theorem foldl_ranklockSet_filter :
    ∀ (ops : List RanklockRow) (tbl : List RanklockRow) (k : Nat × Nat × Nat)
      (last : RanklockRow), (tbl.map rlKey).Nodup → ops.getLast? = some last →
      (∀ op ∈ ops, rlKey op = k) →
      (List.foldl ranklockSet tbl ops).filter (fun r => decide (rlKey r = k))
        = [canonRow k last] := by
  intro ops
  induction ops with
  | nil => intro tbl k last _ hlast _; simp at hlast
  | cons op rest ih =>
    intro tbl k last hnd hlast hk
    rw [List.foldl_cons]
    cases rest with
    | nil =>
      simp only [List.getLast?_singleton, Option.some.injEq] at hlast
      subst hlast
      simp only [List.foldl_nil]
      exact ranklockSet_filter tbl op k hnd (hk op (by simp))
    | cons b rest2 =>
      rw [List.getLast?_cons_cons] at hlast
      exact ih (ranklockSet tbl op) k last (ranklockSet_nodup tbl op hnd) hlast
        (fun x hx => hk x (List.mem_cons_of_mem op hx))

/-- C3: starting from any table satisfying the primary-key invariant, a
sequence of ranklock set operations for one (guild, user, group) key leaves
exactly one row for that key, carrying the max_rank_id, reason, set_by and
set_at of the most recent operation, and the key invariant is preserved
(lines 58-67 and 525-531: INSERT ... ON CONFLICT ... DO UPDATE). -/
theorem ranklock_upsert_replaces (tbl ops : List RanklockRow) (k : Nat × Nat × Nat)
    (last : RanklockRow) (hnd : (tbl.map rlKey).Nodup) (hlast : ops.getLast? = some last)
    (hk : ∀ op ∈ ops, rlKey op = k) :
    (List.foldl ranklockSet tbl ops).filter (fun r => decide (rlKey r = k)) = [canonRow k last]
    ∧ ((List.foldl ranklockSet tbl ops).map rlKey).Nodup :=
  ⟨foldl_ranklockSet_filter ops tbl k last hnd hlast hk,
   foldl_ranklockSet_nodup ops tbl hnd⟩

theorem ranklock_upsert_replaces_witness :
    ((([] : List RanklockRow).map rlKey).Nodup
      ∧ ([(⟨1, 2, 3, 5, "first", 9, 100⟩ : RanklockRow), ⟨1, 2, 3, 7, "second", 9, 200⟩].getLast?
          = some (⟨1, 2, 3, 7, "second", 9, 200⟩ : RanklockRow))
      ∧ (∀ op ∈ [(⟨1, 2, 3, 5, "first", 9, 100⟩ : RanklockRow), ⟨1, 2, 3, 7, "second", 9, 200⟩],
          rlKey op = ((1 : Nat), (2 : Nat), (3 : Nat))))
    ∧ ((List.foldl ranklockSet []
          [(⟨1, 2, 3, 5, "first", 9, 100⟩ : RanklockRow), ⟨1, 2, 3, 7, "second", 9, 200⟩]).filter
            (fun r => decide (rlKey r = ((1 : Nat), (2 : Nat), (3 : Nat))))
          = [canonRow ((1 : Nat), (2 : Nat), (3 : Nat)) ⟨1, 2, 3, 7, "second", 9, 200⟩]
        ∧ ((List.foldl ranklockSet []
              [(⟨1, 2, 3, 5, "first", 9, 100⟩ : RanklockRow),
               ⟨1, 2, 3, 7, "second", 9, 200⟩]).map rlKey).Nodup) :=
  ⟨⟨by simp, rfl, by decide⟩,
   ranklock_upsert_replaces [] _ _ _ (by simp) rfl (by decide)⟩

theorem invGo_fetches_le (fetch : String → InvResp) :
    ∀ (fuel : Nat) (cursor : String) (seen : List String) (acc : List Nat) (st : Option Nat),
      (invGo fetch fuel cursor seen acc st).fetches ≤ fuel := by
  intro fuel
  induction fuel with
  | zero => intro cursor seen acc st; simp [invGo]
  | succ n ih =>
    intro cursor seen acc st
    simp only [invGo]
    cases fetch cursor with
    | exn => simp
    | resp status page =>
      by_cases h1 : status = 401 ∨ status = 403
      · simp [h1]
      · by_cases h2 : status ≠ 200
        · simp [h1, h2]
        · by_cases h3 : page.nextPageCursor = ""
          · simp [h1, h2, h3]
          · by_cases h4 : page.nextPageCursor ∈ seen
            · simp [h1, h2, h3, h4]
            · simp only [h1, h2, h3, h4, if_false, if_neg, ite_false, bump]
              have := ih page.nextPageCursor (page.nextPageCursor :: seen)
                (acc ++ page.items) (some status)
              simp [h1, h2, h3, h4]
              omega

theorem invGo_seen_cursor_stops (items : List Nat) (c : String) (hc : ¬ c = "")
    (fetch : String → InvResp) (hf : ∀ cur, fetch cur = InvResp.resp 200 ⟨items, c⟩) :
    ∀ (fuel : Nat) (seen : List String) (acc : List Nat) (st : Option Nat), c ∈ seen →
      (invGo fetch fuel c seen acc st).fetches ≤ 1 := by
  intro fuel
  cases fuel with
  | zero => intro seen acc st _; simp [invGo]
  | succ n =>
    intro seen acc st hmem
    simp [invGo, hf c, hc, hmem]

/-- C9: the pagination loop of inv_fetch_asset_type performs at most
limit_pages page fetches for any page-fetch behaviour, and a behaviour
that keeps returning the same non-empty cursor is stopped by the
cycle guard after at most 2 fetches no matter how large limit_pages is
(lines 249-286); the traversal is a total function, so it never loops. -/
theorem inv_fetch_bounded (fetch : String → InvResp) (limitPages : Nat) :
    (inv_fetch_asset_type fetch limitPages).fetches ≤ limitPages
    ∧ (∀ (items : List Nat) (c : String), ¬ c = "" →
        (∀ cur, fetch cur = InvResp.resp 200 ⟨items, c⟩) →
        (inv_fetch_asset_type fetch limitPages).fetches ≤ 2) := by
  constructor
  · exact invGo_fetches_le fetch limitPages "" [] [] none
  · intro items c hc hf
    unfold inv_fetch_asset_type
    cases limitPages with
    | zero => simp [invGo]
    | succ n =>
      have hne : ¬ (("" : String) = "") = False := by simp
      simp only [invGo, hf ""]
      have hcnil : c ∉ ([] : List String) := by simp
      simp only [show ¬ ((200 : Nat) = 401 ∨ (200 : Nat) = 403) by decide, if_false,
        show ¬ ((200 : Nat) ≠ 200) by decide, ite_false, ite_true]
      rw [if_neg hc, if_neg hcnil]
      have := invGo_seen_cursor_stops items c hc fetch hf n [c] ([] ++ items) (some 200)
        (by simp)
      simp only [bump]
      omega

theorem inv_fetch_bounded_witness :
    (inv_fetch_asset_type (fun _ => InvResp.resp 200 ⟨[1], "x"⟩) 99).fetches ≤ 2 :=
  (inv_fetch_bounded (fun _ => InvResp.resp 200 ⟨[1], "x"⟩) 99).2 [1] "x"
    (by decide) (fun _ => rfl)

theorem invGo_none_status (fetch : String → InvResp) :
    ∀ (fuel : Nat) (cursor : String) (seen : List String) (acc : List Nat) (st : Option Nat),
      (invGo fetch fuel cursor seen acc st).assetIds = none →
      (invGo fetch fuel cursor seen acc st).status = some 401
        ∨ (invGo fetch fuel cursor seen acc st).status = some 403 := by
  intro fuel
  induction fuel with
  | zero => intro cursor seen acc st h; simp [invGo] at h
  | succ n ih =>
    intro cursor seen acc st
    rcases hfc : fetch cursor with _ | ⟨status, page⟩
    · intro h; simp [invGo, hfc] at h
    · by_cases h1 : status = 401 ∨ status = 403
      · intro _
        rcases h1 with h1 | h1 <;> simp [invGo, hfc, h1]
      · by_cases h2 : status ≠ 200
        · intro h; simp [invGo, hfc, h1, h2] at h
        · by_cases h3 : page.nextPageCursor = ""
          · intro h; simp [invGo, hfc, h1, h2, h3] at h
          · by_cases h4 : page.nextPageCursor ∈ seen
            · intro h; simp [invGo, hfc, h1, h2, h3, h4] at h
            · intro h
              simp only [invGo, hfc] at h ⊢
              rw [if_neg h1, if_neg h2, if_neg h3, if_neg h4] at h ⊢
              exact ih _ _ _ _ h

theorem phase1Pct_mono (t : Nat) {a b : Nat} (h : a ≤ b) : phase1Pct t a ≤ phase1Pct t b :=
  Nat.div_le_div_right (Nat.mul_le_mul_right _ (Nat.sub_le_sub_right h 1))

theorem phase1Pct_lt_40 {t i : Nat} (h1 : 1 ≤ i) (h2 : i ≤ t) : phase1Pct t i < 40 := by
  have ht : 1 ≤ t := le_trans h1 h2
  unfold phase1Pct
  rw [max_eq_right ht, Nat.div_lt_iff_lt_mul (by omega : 0 < t)]
  omega

theorem pricingPct_mono (t : Nat) {a b : Nat} (h : a ≤ b) : pricingPct t a ≤ pricingPct t b :=
  Nat.add_le_add_left (Nat.div_le_div_right (Nat.mul_le_mul_right _ h)) 40

theorem pricingPct_ge (t i : Nat) : 40 ≤ pricingPct t i := Nat.le_add_right 40 _

theorem pricingPct_le {t i : Nat} (h1 : 1 ≤ i) (h2 : i ≤ t) : pricingPct t i ≤ 95 := by
  have ht : 1 ≤ t := le_trans h1 h2
  unfold pricingPct
  rw [max_eq_right ht]
  have : i * 55 / t ≤ 55 := by
    calc i * 55 / t ≤ t * 55 / t := Nat.div_le_div_right (Nat.mul_le_mul_right _ h2)
      _ = 55 := Nat.mul_div_cancel_left 55 (by omega)
  omega

theorem scanGo_isPrivate (inv : Nat → Option (List Nat) × Option Nat) (t : Nat) :
    ∀ (cats : List (Nat × String)) (idx : Nat),
      (scanGo inv t cats idx).isPrivate = cats.any (fun c => ((inv c.1).1).isNone) := by
  intro cats
  induction cats with
  | nil => intro idx; simp [scanGo]
  | cons c rest ih =>
    intro idx
    obtain ⟨atid, label⟩ := c
    rcases h : inv atid with ⟨ids, status⟩
    cases ids with
    | none => simp [scanGo, h]
    | some l => simp [scanGo, h, ih]

theorem scanGo_fetched (inv : Nat → Option (List Nat) × Option Nat) (t : Nat) :
    ∀ (cats : List (Nat × String)) (idx : Nat),
      (scanGo inv t cats idx).fetched
        = cats.take (cats.findIdx (fun c => ((inv c.1).1).isNone) + 1) := by
  intro cats
  induction cats with
  | nil => intro idx; simp [scanGo]
  | cons c rest ih =>
    intro idx
    obtain ⟨atid, label⟩ := c
    rcases h : inv atid with ⟨ids, status⟩
    cases ids with
    | none => simp [scanGo, h, List.findIdx_cons]
    | some l => simp [scanGo, h, List.findIdx_cons, ih, List.take_succ_cons]

theorem scanGo_emissions_spec (inv : Nat → Option (List Nat) × Option Nat) (t : Nat) :
    ∀ (cats : List (Nat × String)) (idx : Nat), 1 ≤ idx → idx + cats.length ≤ t + 1 →
      (∀ p ∈ (scanGo inv t cats idx).emissions.map Prod.fst, phase1Pct t idx ≤ p ∧ p < 40)
      ∧ ((scanGo inv t cats idx).emissions.map Prod.fst).Pairwise (fun a b => a ≤ b) := by
  intro cats
  induction cats with
  | nil =>
    intro idx h1 h2
    constructor
    · intro p hp; simp [scanGo] at hp
    · simp [scanGo]
  | cons c rest ih =>
    intro idx h1 h2
    obtain ⟨atid, label⟩ := c
    have hidxt : idx ≤ t := by
      simp only [List.length_cons] at h2
      omega
    rcases hinv : inv atid with ⟨ids, status⟩
    cases ids with
    | none =>
      constructor
      · intro p hp
        simp [scanGo, hinv] at hp
        subst hp
        exact ⟨le_refl _, phase1Pct_lt_40 h1 hidxt⟩
      · simp [scanGo, hinv]
    | some l =>
      have ih' := ih (idx + 1) (by omega)
        (by simp only [List.length_cons] at h2; omega)
      have hEm : (scanGo inv t ((atid, label) :: rest) idx).emissions
          = (phase1Pct t idx, "Scanning inventory… (" ++ label ++ ")")
              :: (scanGo inv t rest (idx + 1)).emissions := by
        simp [scanGo, hinv]
      rw [hEm]
      rw [List.map_cons]
      constructor
      · intro p hp
        rcases List.mem_cons.mp hp with hp | hp
        · subst hp
          exact ⟨le_refl _, phase1Pct_lt_40 h1 hidxt⟩
        · have := ih'.1 p hp
          exact ⟨le_trans (phase1Pct_mono t (Nat.le_succ idx)) this.1, this.2⟩
      · rw [List.pairwise_cons]
        refine ⟨?_, ih'.2⟩
        intro p hp
        exact le_trans (phase1Pct_mono t (Nat.le_succ idx)) ((ih'.1 p hp).1)

theorem pyDedup_nodup (l : List Nat) : (pyDedup l).Nodup := by
  have aux : ∀ (l : List Nat) (acc : List Nat), acc.Nodup →
      (l.foldl (fun acc a => if a ∈ acc then acc else acc ++ [a]) acc).Nodup := by
    intro l
    induction l with
    | nil => intro acc h; exact h
    | cons a rest ih =>
      intro acc h
      rw [List.foldl_cons]
      by_cases ha : a ∈ acc
      · rw [if_pos ha]; exact ih acc h
      · rw [if_neg ha]
        apply ih
        simp [List.nodup_append, h, ha]
  exact aux l [] (by simp)

theorem pricingEmissions_spec (t : Nat) :
    (∀ p ∈ (pricingEmissions t).map Prod.fst, 40 ≤ p ∧ p ≤ 95)
    ∧ ((pricingEmissions t).map Prod.fst).Pairwise (fun a b => a ≤ b) := by
  have hmapfst : (pricingEmissions t).map Prod.fst
      = ((List.range' 1 t).filter
          (fun i => decide (i = 1) || decide (i % 10 = 0) || decide (i = t))).map
            (fun i => pricingPct t i) := by
    unfold pricingEmissions
    rw [List.map_map]
    rfl
  rw [hmapfst]
  constructor
  · intro p hp
    obtain ⟨i, hi, rfl⟩ := List.mem_map.mp hp
    have hirange : i ∈ List.range' 1 t := List.mem_of_mem_filter hi
    have hbounds := List.mem_range'_1.mp hirange
    exact ⟨pricingPct_ge t i, pricingPct_le hbounds.1 (by omega)⟩
  · rw [List.pairwise_map]
    have hlt : List.Pairwise (fun a b => a < b) (List.range' 1 t) :=
      List.pairwise_lt_range' 1 t 1 (by omega)
    have hfilter : List.Pairwise (fun a b => a < b)
        ((List.range' 1 t).filter
          (fun i => decide (i = 1) || decide (i % 10 = 0) || decide (i = t))) :=
      List.Pairwise.sublist (List.filter_sublist _) hlt
    exact hfilter.imp (fun h => pricingPct_mono t (le_of_lt h))

theorem emissions_append_100 (l : List Nat) (hpair : l.Pairwise (fun a b => a ≤ b))
    (hle : ∀ p ∈ l, p ≤ 100) :
    (l ++ [100]).Pairwise (fun a b => a ≤ b)
    ∧ (l ++ [100]).getLast? = some 100
    ∧ ∀ p ∈ l ++ [100], p ≤ 100 := by
  refine ⟨?_, List.getLast?_concat l, ?_⟩
  · rw [List.pairwise_append]
    refine ⟨hpair, by simp, ?_⟩
    intro a ha b hb
    rw [List.mem_singleton] at hb
    subst hb
    exact hle a ha
  · intro p hp
    rcases List.mem_append.mp hp with hp | hp
    · exact hle p hp
    · rw [List.mem_singleton] at hp
      subst hp
      exact le_refl 100

theorem compute_emissions_spec (inv : Nat → Option (List Nat) × Option Nat)
    (price : Nat → Option Nat) (m : Int) :
    ((compute_value_estimate inv price m).emissions.map Prod.fst).Pairwise (fun a b => a ≤ b)
    ∧ ((compute_value_estimate inv price m).emissions.map Prod.fst).getLast? = some 100
    ∧ ∀ p ∈ (compute_value_estimate inv price m).emissions.map Prod.fst, p ≤ 100 := by
  have hs := scanGo_emissions_spec inv ASSET_TYPES.length ASSET_TYPES 1 (by omega) (by omega)
  have hsle : ∀ p ∈ (scanGo inv ASSET_TYPES.length ASSET_TYPES 1).emissions.map Prod.fst,
      p ≤ 100 := by
    intro p hp
    have := (hs.1 p hp).2
    omega
  unfold compute_value_estimate
  by_cases hp : (scanGo inv ASSET_TYPES.length ASSET_TYPES 1).isPrivate = true
  · rw [if_pos hp]
    simp only [privateResult, List.map_append, List.map_cons, List.map_nil]
    exact emissions_append_100 _ hs.2 hsle
  · rw [if_neg hp]
    unfold phase2
    by_cases hd : pyDedup (scanGo inv ASSET_TYPES.length ASSET_TYPES 1).allAssets = []
    · rw [if_pos hd]
      simp only [List.map_append, List.map_cons, List.map_nil]
      exact emissions_append_100 _ hs.2 hsle
    · rw [if_neg hd]
      simp only [List.map_append, List.map_cons, List.map_nil]
      have hpe := pricingEmissions_spec
        (sampleAssets (scanGo inv ASSET_TYPES.length ASSET_TYPES 1) (clamp m 30 300)).length
      have hAB : ((scanGo inv ASSET_TYPES.length ASSET_TYPES 1).emissions.map Prod.fst
          ++ (pricingEmissions
            (sampleAssets (scanGo inv ASSET_TYPES.length ASSET_TYPES 1)
              (clamp m 30 300)).length).map Prod.fst).Pairwise (fun a b => a ≤ b) := by
        rw [List.pairwise_append]
        exact ⟨hs.2, hpe.2,
          fun a ha b hb => le_trans (le_of_lt (hs.1 a ha).2) (hpe.1 b hb).1⟩
      have hABle : ∀ p ∈ (scanGo inv ASSET_TYPES.length ASSET_TYPES 1).emissions.map Prod.fst
          ++ (pricingEmissions
            (sampleAssets (scanGo inv ASSET_TYPES.length ASSET_TYPES 1)
              (clamp m 30 300)).length).map Prod.fst, p ≤ 100 := by
        intro p hp2
        rcases List.mem_append.mp hp2 with h | h
        · exact hsle p h
        · have := (hpe.1 p h).2
          omega
      exact emissions_append_100 _ hAB hABle

theorem le_clamp_30_300 (n : Int) : (30 : Int) ≤ clamp n 30 300 := le_max_left 30 _

theorem clamp_30_300_le (n : Int) : clamp n 30 300 ≤ 300 :=
  max_le (by norm_num) (min_le_left _ _)

/-- C4: when any inventory category fetch signals privacy (which happens
exactly on an HTTP 401/403 page response, last conjunct), the estimator
stops at that category (the fetched list is cut at the first private
category), reports inventory_private = true with est_value = none, and
submits nothing for pricing (lines 267-268 and 320-344). -/
theorem inventory_private_blocks (pageFetch : Nat → String → InvResp)
    (price : Nat → Option Nat) (m : Int)
    (h : ∃ c ∈ ASSET_TYPES, (inv_fetch_asset_type (pageFetch c.1) 2).assetIds = none) :
    (compute_value_estimate_full pageFetch price m).est.inventory_private = true
    ∧ (compute_value_estimate_full pageFetch price m).est.est_value_robux = none
    ∧ (compute_value_estimate_full pageFetch price m).pricingCalls = []
    ∧ (compute_value_estimate_full pageFetch price m).fetchedCats
        = ASSET_TYPES.take
            (ASSET_TYPES.findIdx
              (fun c => ((inv_fetch_asset_type (pageFetch c.1) 2).assetIds).isNone) + 1)
    ∧ (∀ (fetch : String → InvResp) (n : Nat),
        (inv_fetch_asset_type fetch n).assetIds = none →
        (inv_fetch_asset_type fetch n).status = some 401
          ∨ (inv_fetch_asset_type fetch n).status = some 403) := by
  have hpriv : (scanGo (invOf pageFetch) ASSET_TYPES.length ASSET_TYPES 1).isPrivate = true := by
    rw [scanGo_isPrivate, List.any_eq_true]
    obtain ⟨c, hc, hnone⟩ := h
    refine ⟨c, hc, ?_⟩
    simp [invOf, hnone]
  have hres : compute_value_estimate_full pageFetch price m
      = privateResult (scanGo (invOf pageFetch) ASSET_TYPES.length ASSET_TYPES 1) := by
    unfold compute_value_estimate_full compute_value_estimate
    rw [if_pos hpriv]
  refine ⟨?_, ?_, ?_, ?_, fun fetch n => invGo_none_status fetch n "" [] [] none⟩
  · rw [hres]; rfl
  · rw [hres]; rfl
  · rw [hres]; rfl
  · rw [hres]
    show (privateResult _).fetchedCats = _
    simp only [privateResult]
    rw [scanGo_fetched]
    rfl

theorem inventory_private_blocks_witness :
    (∃ c ∈ ASSET_TYPES,
        (inv_fetch_asset_type ((fun _ _ => InvResp.resp 403 ⟨[], ""⟩) c.1) 2).assetIds = none)
    ∧ ((compute_value_estimate_full (fun _ _ => InvResp.resp 403 ⟨[], ""⟩)
          (fun _ => none) 120).est.inventory_private = true
      ∧ (compute_value_estimate_full (fun _ _ => InvResp.resp 403 ⟨[], ""⟩)
          (fun _ => none) 120).est.est_value_robux = none
      ∧ (compute_value_estimate_full (fun _ _ => InvResp.resp 403 ⟨[], ""⟩)
          (fun _ => none) 120).pricingCalls = []
      ∧ (compute_value_estimate_full (fun _ _ => InvResp.resp 403 ⟨[], ""⟩)
          (fun _ => none) 120).fetchedCats
          = ASSET_TYPES.take
              (ASSET_TYPES.findIdx
                (fun c => ((inv_fetch_asset_type
                  ((fun _ _ => InvResp.resp 403 ⟨[], ""⟩) c.1) 2).assetIds).isNone) + 1)
      ∧ (∀ (fetch : String → InvResp) (n : Nat),
          (inv_fetch_asset_type fetch n).assetIds = none →
          (inv_fetch_asset_type fetch n).status = some 401
            ∨ (inv_fetch_asset_type fetch n).status = some 403)) :=
  ⟨⟨(8, "Hats"), by decide, by decide⟩,
   inventory_private_blocks _ _ _ ⟨(8, "Hats"), by decide, by decide⟩⟩

/-- C6: the ids submitted for pricing in one valuation run are the
deduplicated sample, so any single identifier is priced at most once even
when several categories returned it (lines 346-372). -/
theorem inventory_item_priced_once (pageFetch : Nat → String → InvResp)
    (price : Nat → Option Nat) (m : Int) (aid : Nat) :
    ((compute_value_estimate_full pageFetch price m).pricingCalls).count aid ≤ 1 := by
  unfold compute_value_estimate_full compute_value_estimate
  by_cases hp : (scanGo (invOf pageFetch) ASSET_TYPES.length ASSET_TYPES 1).isPrivate = true
  · rw [if_pos hp]
    simp [privateResult]
  · rw [if_neg hp]
    unfold phase2
    by_cases hd : pyDedup (scanGo (invOf pageFetch) ASSET_TYPES.length ASSET_TYPES 1).allAssets = []
    · rw [if_pos hd]
      simp
    · rw [if_neg hd]
      have hnd : (sampleAssets (scanGo (invOf pageFetch) ASSET_TYPES.length ASSET_TYPES 1)
          (clamp m 30 300)).Nodup :=
        List.Nodup.sublist (List.take_sublist _ _) (pyDedup_nodup _)
      exact List.nodup_iff_count_le_one.mp hnd aid

/-- C7: whatever sample-size argument the caller passes, the ids submitted
for pricing are at most clamp(n, 30, 300) many, the clamped cap never
exceeds 300 and never drops below 30 (lines 138-139, 303 and 361). -/
theorem pricing_calls_clamped (pageFetch : Nat → String → InvResp)
    (price : Nat → Option Nat) (m : Int) :
    ((compute_value_estimate_full pageFetch price m).pricingCalls.length : Int) ≤ clamp m 30 300
    ∧ clamp m 30 300 ≤ 300 ∧ (30 : Int) ≤ clamp m 30 300 := by
  refine ⟨?_, clamp_30_300_le m, le_clamp_30_300 m⟩
  have h0 : (0 : Int) ≤ clamp m 30 300 := le_trans (by norm_num) (le_clamp_30_300 m)
  unfold compute_value_estimate_full compute_value_estimate
  by_cases hp : (scanGo (invOf pageFetch) ASSET_TYPES.length ASSET_TYPES 1).isPrivate = true
  · rw [if_pos hp]
    simpa [privateResult] using h0
  · rw [if_neg hp]
    unfold phase2
    by_cases hd : pyDedup (scanGo (invOf pageFetch) ASSET_TYPES.length ASSET_TYPES 1).allAssets = []
    · rw [if_pos hd]
      simpa using h0
    · rw [if_neg hd]
      have hlen : (sampleAssets (scanGo (invOf pageFetch) ASSET_TYPES.length ASSET_TYPES 1)
          (clamp m 30 300)).length ≤ (clamp m 30 300).toNat := by
        unfold sampleAssets
        rw [List.length_take]
        exact min_le_left _ _
      calc ((sampleAssets (scanGo (invOf pageFetch) ASSET_TYPES.length ASSET_TYPES 1)
              (clamp m 30 300)).length : Int)
          ≤ ((clamp m 30 300).toNat : Int) := Int.ofNat_le.mpr hlen
        _ = clamp m 30 300 := Int.toNat_of_nonneg h0

/-- C8: within one valuation run the percentages handed to the progress
callback are non-decreasing and the final one is exactly 100 on every
terminating path (blocked, no items, and normal completion); the same
holds for the surrounding bgcheck emission sequence (its leading 0 and
trailing 100), and the relay throttle never drops a 100-percent event
(lines 314-383 and 684-699). -/
theorem progress_monotone_100 (pageFetch : Nat → String → InvResp)
    (price : Nat → Option Nat) (m : Int) :
    ((compute_value_estimate_full pageFetch price m).emissions.map Prod.fst).Pairwise
        (fun a b => a ≤ b)
    ∧ ((compute_value_estimate_full pageFetch price m).emissions.map Prod.fst).getLast?
        = some 100
    ∧ ((bgcheckEmissions pageFetch price m).map Prod.fst).Pairwise (fun a b => a ≤ b)
    ∧ ((bgcheckEmissions pageFetch price m).map Prod.fst).getLast? = some 100
    ∧ ∀ lastUpdate now, throttleKeep lastUpdate now 100 = true := by
  have h := compute_emissions_spec (invOf pageFetch) price m
  refine ⟨h.1, h.2.1, ?_, ?_, ?_⟩
  · unfold bgcheckEmissions
    rw [List.map_cons, List.pairwise_cons]
    constructor
    · intro b _
      exact Nat.zero_le b
    · rw [List.map_append]
      exact (emissions_append_100 _ h.1 h.2.2).1
  · unfold bgcheckEmissions
    rw [List.map_cons, List.map_append]
    simp only [List.map_cons, List.map_nil]
    rw [← List.cons_append, List.getLast?_concat]
  · intro lastUpdate now
    simp [throttleKeep]

end BGCheck
